import Mathlib

/-!
Verification development for the log-aggregation and statistics engine of
the `conflux-massive-test` repository (`analyzer/*` package).

The Python sources are shallowly embedded: Python `float` sample values are
modelled as rationals (`ℚ`), Python lists as Lean lists, Python dicts as
association lists or `String → Option _` maps, nullable entries as `Option`,
and code that can raise as `Except`-returning functions.  `list.sort()` is
modelled by the stable sort `List.insertionSort (· ≤ ·)` together with the
final value of the (mutated) caller list.  Python `round(x, n)` is
round-half-to-even, modelled exactly on `ℚ` by `pyRound`.
-/

namespace MassiveTest

/-! ## Python-style rounding (banker's rounding), `analyzer` uses `round(value, 2)` -/

/-- Integer rounding of a rational, half-to-even: the semantics of Python's
built-in `round(x)` (modelled exactly on `ℚ`). -/
def roundHalfEvenInt (x : ℚ) : ℤ :=
  let f := ⌊x⌋
  let frac := x - f
  if frac < 1/2 then f
  else if 1/2 < frac then f + 1
  else if f % 2 = 0 then f else f + 1

/-- Python's `round(x, nd)` on rationals: round half-to-even at `nd` decimal
digits. -/
def pyRound (x : ℚ) (nd : ℕ) : ℚ :=
  (roundHalfEvenInt (x * 10 ^ nd) : ℚ) / 10 ^ nd

/-! ## `Percentile` enum (`data_utils.py`, class `Percentile`) -/

/-- `data_utils.Percentile`: the summary keys of a `Statistics` object. -/
inductive Percentile where
  | Min | Avg | P10 | P30 | P50 | P80 | P90 | P95 | P99 | P999 | Max | Cnt
  deriving DecidableEq, Repr

/-- The numeric enum value of a percentile key (`Percentile.Min.value = 0`,
`Percentile.P10.value = 0.1`, ..., `Percentile.Max.value = 1`).  `Avg` and
`Cnt` carry string enum values in the source and never reach the indexing
branch; they are given `0` here and are matched away before use. -/
def Percentile.pvalue : Percentile → ℚ
  | .Min => 0
  | .Avg => 0
  | .P10 => 1/10
  | .P30 => 3/10
  | .P50 => 1/2
  | .P80 => 4/5
  | .P90 => 9/10
  | .P95 => 95/100
  | .P99 => 99/100
  | .P999 => 999/1000
  | .Max => 1
  | .Cnt => 0

/-- The percentile keys that go through the sorted-index branch of
`Statistics.__init__` (everything except `Avg` and `Cnt`). -/
def Percentile.isIndexKey : Percentile → Bool
  | .Avg => false
  | .Cnt => false
  | _ => true

/-! ## `Statistics` (`data_utils.py`, class `Statistics`) -/

/-- A `Statistics` object is its attribute dictionary `__dict__`, restricted
to the percentile keys: absent attribute = `none`. -/
def Statistics : Type := Percentile → Option ℚ

/-- `Statistics.__init__(data, avg_ndigits=2, sort=True)`: on an empty (or
`None`) sample it returns immediately, leaving every field absent; otherwise
it sorts the list in place and stores one value per `Percentile` key:
the rounded mean for `Avg`, the length for `Cnt`, and
`data[int((len-1) * p.value)]` for every other key. -/
def Statistics.init (data : List ℚ) (avg_ndigits : Option ℕ) : Statistics :=
  if data.length = 0 then fun _ => none
  else
    let sorted := data.insertionSort (· ≤ ·)
    let n := data.length
    fun p =>
      match p with
      | .Avg =>
          let value := sorted.sum / (n : ℚ)
          some (match avg_ndigits with
                | some nd => pyRound value nd
                | none => value)
      | .Cnt => some ((n : ℚ))
      | _ => some (sorted.getD ⌊(((n - 1 : ℕ)) : ℚ) * p.pvalue⌋₊ 0)

/-- The final contents of the caller-supplied list after
`Statistics.__init__(data, sort=sort)` returns (the constructor calls
`data.sort()` in place unless the list is empty or `sort` is false). -/
def Statistics.finalData (data : List ℚ) (sort : Bool := true) : List ℚ :=
  if data.length = 0 then data
  else if sort then data.insertionSort (· ≤ ·)
  else data

/-- `Statistics.get(p)`: reads `self.__dict__[p.name]`; a missing key raises
`KeyError`, modelled as `Except.error`. -/
def Statistics.get (s : Statistics) (p : Percentile) : Except String ℚ :=
  match s p with
  | some v => Except.ok v
  | none => Except.error "KeyError"

/-- Modelled from the spec's words, for refinement comparison only (the source
uses `int(...)`, i.e. truncation): the "nearest-rank by rounding" index
`round((n-1)*P)` that the spec describes, with Python-`round` semantics. -/
def specRoundIdx (n : ℕ) (p : Percentile) : ℕ :=
  (roundHalfEvenInt (((n - 1 : ℕ) : ℚ) * p.pvalue)).toNat

/-- Unfolding equation for `Statistics.init` (with the default
`avg_ndigits=2`) on a non-empty sample. -/
theorem Statistics.init_apply (data : List ℚ) (h : ¬ data.length = 0) (p : Percentile) :
    Statistics.init data (some 2) p =
      (match p with
       | .Avg => some (pyRound ((data.insertionSort (· ≤ ·)).sum / (data.length : ℚ)) 2)
       | .Cnt => some ((data.length : ℚ))
       | _ => some ((data.insertionSort (· ≤ ·)).getD
                 ⌊((data.length - 1 : ℕ) : ℚ) * p.pvalue⌋₊ 0)) := by
  unfold Statistics.init
  rw [if_neg h]

/-- The sorted-index used by `Statistics.__init__` stays inside the sample:
`int((n-1) * p.value) < n` whenever `p.value ≤ 1` and the sample is non-empty. -/
theorem Statistics.index_lt_length (n : ℕ) (hn : n ≠ 0) (v : ℚ) (hv : v ≤ 1) :
    ⌊((n - 1 : ℕ) : ℚ) * v⌋₊ < n := by
  have hle : ((n - 1 : ℕ) : ℚ) * v ≤ ((n - 1 : ℕ) : ℚ) :=
    mul_le_of_le_one_right (by positivity) hv
  have h1 : ⌊((n - 1 : ℕ) : ℚ) * v⌋₊ ≤ n - 1 := by
    calc ⌊((n - 1 : ℕ) : ℚ) * v⌋₊ ≤ ⌊((n - 1 : ℕ) : ℚ)⌋₊ := Nat.floor_le_floor hle
    _ = n - 1 := Nat.floor_natCast _
  omega

/-! ## Claim theorems about `Statistics` -/

/-- C1, counterexample: `Statistics([]).get(P50)` raises `KeyError` (the
constructor returns early on an empty sample, so `__dict__` has no percentile
keys), refuting "calling `.get(p)` on the resulting object does not raise". -/
theorem statistics_empty_get_raises :
    (Statistics.init [] (some 2)).get Percentile.P50 = Except.error "KeyError" := rfl

/-- C1, amended: constructing `Statistics([])` does not raise and yields an
object with every percentile field absent, and `.get(p)` on it raises
`KeyError` for every percentile `p` (deterministically), rather than
returning an "absent" value. -/
theorem statistics_empty_construct_and_get (p : Percentile) :
    Statistics.init [] (some 2) p = none ∧
    (Statistics.init [] (some 2)).get p = Except.error "KeyError" :=
  ⟨rfl, rfl⟩

/-- C3: for `Statistics` built from a non-empty sample of size `n`,
`P50 = sorted[(n-1)/2]` (the floor of `(n-1)*0.5`), `Max = sorted[n-1]`,
`Cnt = n`, and `Avg` is the arithmetic mean rounded half-to-even to two
decimal places. -/
theorem statistics_core_values (data : List ℚ) (h : data ≠ []) :
    Statistics.init data (some 2) Percentile.P50 =
      some ((data.insertionSort (· ≤ ·)).getD ((data.length - 1) / 2) 0) ∧
    Statistics.init data (some 2) Percentile.Max =
      some ((data.insertionSort (· ≤ ·)).getD (data.length - 1) 0) ∧
    Statistics.init data (some 2) Percentile.Cnt = some ((data.length : ℚ)) ∧
    Statistics.init data (some 2) Percentile.Avg =
      some (pyRound (data.sum / (data.length : ℚ)) 2) := by
  have hlen : ¬ data.length = 0 := by simpa using h
  refine ⟨?_, ?_, ?_, ?_⟩
  · rw [Statistics.init_apply data hlen]
    have hidx : ⌊((data.length - 1 : ℕ) : ℚ) * Percentile.P50.pvalue⌋₊ =
        (data.length - 1) / 2 := by
      show ⌊((data.length - 1 : ℕ) : ℚ) * (1/2)⌋₊ = (data.length - 1) / 2
      rw [mul_one_div, Nat.floor_div_ofNat, Nat.floor_natCast]
    rw [hidx]
  · rw [Statistics.init_apply data hlen]
    have hidx : ⌊((data.length - 1 : ℕ) : ℚ) * Percentile.Max.pvalue⌋₊ =
        data.length - 1 := by
      show ⌊((data.length - 1 : ℕ) : ℚ) * 1⌋₊ = data.length - 1
      rw [mul_one, Nat.floor_natCast]
    rw [hidx]
  · rw [Statistics.init_apply data hlen]
  · rw [Statistics.init_apply data hlen]
    have hsum : (data.insertionSort (· ≤ ·)).sum = data.sum :=
      (data.perm_insertionSort (· ≤ ·)).sum_eq
    rw [hsum]

/-- Witness for C3 at the concrete sample `[3, 1, 2]`. -/
theorem statistics_core_values_witness :
    Statistics.init [(3:ℚ), 1, 2] (some 2) Percentile.P50 = some 2 ∧
    Statistics.init [(3:ℚ), 1, 2] (some 2) Percentile.Max = some 3 ∧
    Statistics.init [(3:ℚ), 1, 2] (some 2) Percentile.Cnt = some 3 ∧
    Statistics.init [(3:ℚ), 1, 2] (some 2) Percentile.Avg = some 2 := by
  have h := statistics_core_values [(3:ℚ), 1, 2] (by simp)
  obtain ⟨h1, h2, h3, h4⟩ := h
  have hsorted : ([(3:ℚ), 1, 2]).insertionSort (· ≤ ·) = [1, 2, 3] := by
    simp [List.insertionSort, List.orderedInsert]
    norm_num
  refine ⟨?_, ?_, ?_, ?_⟩
  · rw [h1, hsorted]; rfl
  · rw [h2, hsorted]; rfl
  · rw [h3]; norm_num
  · rw [h4]
    have : ([(3:ℚ), 1, 2]).sum / (3 : ℚ) = 2 := by norm_num
    rw [show (([(3:ℚ), 1, 2]).length : ℚ) = 3 by norm_num, this]
    simp [pyRound, roundHalfEvenInt]
    norm_num

/-- C4, counterexample: for the sample `[0, 10]` (n = 2) and `P90`, the code
stores `sorted[int(1 * 0.9)] = sorted[0] = 0`, while the claimed index
`round((n-1) * 0.9) = round(0.9) = 1` selects `sorted[1] = 10`. -/
theorem percentile_round_index_counterexample :
    Statistics.init [(0:ℚ), 10] (some 2) Percentile.P90 = some 0 ∧
    specRoundIdx 2 Percentile.P90 = 1 ∧
    (([(0:ℚ), 10]).insertionSort (· ≤ ·)).getD (specRoundIdx 2 Percentile.P90) 0 = 10 ∧
    (0 : ℚ) ≠ 10 := by
  have hidx : ⌊(((2:ℕ) - 1 : ℕ) : ℚ) * Percentile.P90.pvalue⌋₊ = 0 := by
    show ⌊((1:ℕ) : ℚ) * (9/10)⌋₊ = 0
    norm_num
  have hround : specRoundIdx 2 Percentile.P90 = 1 := by
    show (roundHalfEvenInt (((1:ℕ) : ℚ) * (9/10))).toNat = 1
    have h910 : (⌊(((1:ℕ) : ℚ) * (9/10))⌋ : ℤ) = 0 := by norm_num
    simp only [roundHalfEvenInt, h910]
    norm_num
  refine ⟨?_, hround, ?_, by norm_num⟩
  · rw [Statistics.init_apply [(0:ℚ), 10] (by norm_num)]
    show some ((([(0:ℚ), 10]).insertionSort (· ≤ ·)).getD
      ⌊(((2:ℕ) - 1 : ℕ) : ℚ) * Percentile.P90.pvalue⌋₊ 0) = some 0
    rw [hidx]
    rfl
  · rw [hround]
    rfl

/-- C4, amended: for every non-empty sample and every percentile key among
`P10 … P999`, the stored value is `sorted[int((n-1) * P)]` — the index is the
*floor* (truncation) of `(n-1) * P`, not the rounded nearest rank — and that
index is always in range. -/
theorem percentile_floor_index (data : List ℚ) (h : data ≠ []) (p : Percentile)
    (hp : p ∈ [Percentile.P10, Percentile.P30, Percentile.P50, Percentile.P80,
               Percentile.P90, Percentile.P95, Percentile.P99, Percentile.P999]) :
    Statistics.init data (some 2) p =
      some ((data.insertionSort (· ≤ ·)).getD ⌊((data.length - 1 : ℕ) : ℚ) * p.pvalue⌋₊ 0) ∧
    ⌊((data.length - 1 : ℕ) : ℚ) * p.pvalue⌋₊ < data.length := by
  have hlen : ¬ data.length = 0 := by simpa using h
  have hv : p.pvalue ≤ 1 := by
    fin_cases hp <;> norm_num [Percentile.pvalue]
  refine ⟨?_, Statistics.index_lt_length data.length hlen p.pvalue hv⟩
  rw [Statistics.init_apply data hlen]
  fin_cases hp <;> rfl

/-- Witness for C4 (amended) at the sample `[5]` and the `P999` key. -/
theorem percentile_floor_index_witness :
    Statistics.init [(5:ℚ)] (some 2) Percentile.P999 = some 5 ∧ (0:ℕ) < 1 := by
  have h := percentile_floor_index [(5:ℚ)] (by simp) Percentile.P999 (by simp)
  have hidx : ⌊(((1:ℕ) - 1 : ℕ) : ℚ) * Percentile.P999.pvalue⌋₊ = 0 := by
    norm_num
  refine ⟨?_, Nat.zero_lt_one⟩
  rw [h.1]
  show some ((([(5:ℚ)]).insertionSort (· ≤ ·)).getD
    ⌊(((1:ℕ) - 1 : ℕ) : ℚ) * Percentile.P999.pvalue⌋₊ 0) = some 5
  rw [hidx]
  rfl

/-- C9, counterexample: `Statistics.__init__` calls `data.sort()` in place,
so the caller's list `[3, 1, 2]` reads `[1, 2, 3]` after construction — not
the same sequence as before. -/
theorem statistics_mutates_caller_list :
    Statistics.finalData [(3:ℚ), 1, 2] = [1, 2, 3] ∧
    ([(3:ℚ), 1, 2]) ≠ [1, 2, 3] := by
  constructor
  · show (if _ then _ else _) = _
    rw [if_neg (by norm_num), if_pos rfl]
    simp [List.insertionSort, List.orderedInsert]
    norm_num
  · simp

/-- C9, amended: the constructor (with the default `sort=True`) sorts the
caller's list in place: afterwards the caller's list is the ascending sort of
what it held — a permutation of the original contents (nothing lost or
added), but in general not the original sequence. -/
theorem statistics_finalData_sorted_perm (data : List ℚ) :
    Statistics.finalData data = data.insertionSort (· ≤ ·) ∧
    (Statistics.finalData data).Perm data ∧
    List.Sorted (· ≤ ·) (Statistics.finalData data) := by
  have h1 : Statistics.finalData data = data.insertionSort (· ≤ ·) := by
    unfold Statistics.finalData
    split
    · next hnil =>
      rw [List.length_eq_zero] at hnil
      subst hnil
      rfl
    · rw [if_pos rfl]
  exact ⟨h1, h1 ▸ data.perm_insertionSort (· ≤ ·),
         h1 ▸ List.sorted_insertionSort (· ≤ ·) data⟩

/-! ## Latency-key enums (`data_utils.py`) and `Block` -/

/-- `data_utils.BlockLatencyType`. -/
inductive BlockLatencyType where
  | Receive | Sync | Cons
  deriving DecidableEq, Repr

/-- `BlockLatencyType.name` (the Python enum member name). -/
def BlockLatencyType.name : BlockLatencyType → String
  | .Receive => "Receive"
  | .Sync => "Sync"
  | .Cons => "Cons"

/-- `data_utils.BlockEventRecordType`. -/
inductive BlockEventRecordType where
  | HeaderReady | BodyReady | SyncGraph | ConsensusGraphStart
  | ConsensusGraphReady | ComputeEpoch | NotifyTxPool | TxPoolUpdated
  deriving DecidableEq, Repr

/-- The Python enum value of a `BlockEventRecordType` member. -/
def BlockEventRecordType.value : BlockEventRecordType → ℕ
  | .HeaderReady => 0
  | .BodyReady => 1
  | .SyncGraph => 2
  | .ConsensusGraphStart => 3
  | .ConsensusGraphReady => 4
  | .ComputeEpoch => 5
  | .NotifyTxPool => 6
  | .TxPoolUpdated => 7

/-- `BlockEventRecordType.name`. -/
def BlockEventRecordType.name : BlockEventRecordType → String
  | .HeaderReady => "HeaderReady"
  | .BodyReady => "BodyReady"
  | .SyncGraph => "SyncGraph"
  | .ConsensusGraphStart => "ConsensusGraphStart"
  | .ConsensusGraphReady => "ConsensusGraphReady"
  | .ComputeEpoch => "ComputeEpoch"
  | .NotifyTxPool => "NotifyTxPool"
  | .TxPoolUpdated => "TxPoolUpdated"

/-- A default latency key (`aggregators.default_latency_keys()` yields all
`BlockLatencyType` and all `BlockEventRecordType` members). -/
abbrev LatKey : Type := BlockLatencyType ⊕ BlockEventRecordType

/-- `aggregators.default_latency_keys()`: all built-in latency keys. -/
def default_latency_keys : List LatKey :=
  [.inl .Receive, .inl .Sync, .inl .Cons,
   .inr .HeaderReady, .inr .BodyReady, .inr .SyncGraph, .inr .ConsensusGraphStart,
   .inr .ConsensusGraphReady, .inr .ComputeEpoch, .inr .NotifyTxPool, .inr .TxPoolUpdated]

/-- `name` of a default latency key. -/
def LatKey.name : LatKey → String
  | .inl t => t.name
  | .inr t => t.name

/-- `data_utils.only_pivot_event(t)`: true iff `t` is a
`BlockEventRecordType` with enum value at least `ComputeEpoch` (5). -/
def only_pivot_event : LatKey → Bool
  | .inl _ => false
  | .inr t => BlockEventRecordType.ComputeEpoch.value ≤ t.value

/-- `data_utils.Block`.  The `latencies` dict maps a latency-type name to the
list of observed samples; `none` models an absent dict key. -/
structure Block where
  hash : String
  parent : String
  timestamp : ℤ
  height : ℤ
  referees : List String
  txs : ℤ
  size : ℤ
  latencies : String → Option (List ℚ)

/-- `Block.merge(another)`: a guarded in-place merge, modelled as returning
the updated receiver.  Different hashes: return unchanged.  Same hash: fill
in `size` when the receiver's is zero, and for each key of either `latencies`
dict keep the receiver's list, adopt the other's list for keys only the other
has, and concatenate (`list.extend`) for shared keys. -/
def Block.merge (self another : Block) : Block :=
  if self.hash ≠ another.hash then self
  else
    { self with
      size := if self.size = 0 ∧ 0 < another.size then another.size else self.size
      latencies := fun k =>
        match self.latencies k, another.latencies k with
        | some l, some l' => some (l ++ l')
        | some l, none => some l
        | none, some l' => some l'
        | none, none => none }

/-- `Block.latency_count(t)`: `len(self.latencies.get(t.name, []))`. -/
def Block.latency_count (self : Block) (t : LatKey) : ℕ :=
  ((self.latencies t.name).getD []).length

/-- `Block.get_latencies(t)`: `self.latencies.get(t.name, [])`. -/
def Block.get_latencies (self : Block) (t : LatKey) : List ℚ :=
  (self.latencies t.name).getD []

/-- The multiset of latency samples a block holds under dict key `k`
(an absent key contributes the empty multiset). -/
def Block.latSamples (b : Block) (k : String) : Multiset ℚ :=
  ((b.latencies k).getD [] : List ℚ)

/-- The set of latency samples a block holds under dict key `k`. -/
def Block.latSampleSet (b : Block) (k : String) : Finset ℚ :=
  ((b.latencies k).getD []).toFinset

/-- A sample block used to instantiate block-merge facts. -/
def blockA : Block :=
  ⟨"0xaa", "0xp", 100, 7, [], 3, 0, fun k => if k = "Sync" then some [1, 2] else none⟩

/-- A second sample block with the same hash as `blockA`. -/
def blockB : Block :=
  ⟨"0xaa", "0xp", 100, 7, [], 3, 5, fun k => if k = "Sync" then some [3] else none⟩

/-- A sample block whose hash differs from `blockA`'s. -/
def blockC : Block :=
  ⟨"0xbb", "0xp", 100, 8, [], 3, 5, fun k => if k = "Sync" then some [9] else none⟩

/-- C5: `Block.merge` of two blocks with different hashes leaves the receiver
unchanged; for equal hashes the per-latency-type sample *multisets* of
`merge(B, B')` and `merge(B', B)` agree (commutativity), and merging a block
with an identical copy leaves the per-type sample *sets* (the union of the
samples) unchanged (idempotence on the union). -/
theorem block_merge_guard_comm_idem (b b' : Block) :
    (b.hash ≠ b'.hash → b.merge b' = b) ∧
    (b.hash = b'.hash → ∀ k, (b.merge b').latSamples k = (b'.merge b).latSamples k) ∧
    (∀ k, (b.merge b).latSampleSet k = b.latSampleSet k) := by
  have hlat : ∀ (x y : Block), x.hash = y.hash → ∀ k,
      (x.merge y).latencies k =
        match x.latencies k, y.latencies k with
        | some l, some l' => some (l ++ l')
        | some l, none => some l
        | none, some l' => some l'
        | none, none => none := by
    intro x y hxy k
    unfold Block.merge
    rw [if_neg (fun hcon => hcon hxy)]
  refine ⟨fun hne => ?_, fun heq k => ?_, fun k => ?_⟩
  · unfold Block.merge
    rw [if_pos hne]
  · unfold Block.latSamples
    rw [hlat b b' heq k, hlat b' b heq.symm k]
    cases b.latencies k <;> cases b'.latencies k <;>
      simp [Multiset.coe_eq_coe]
    exact List.perm_append_comm
  · unfold Block.latSampleSet
    rw [hlat b b rfl k]
    cases b.latencies k <;> simp

/-- Witness for C5: commutativity of the sample multisets for the same-hash
pair `blockA`/`blockB`, and the no-op guard for the different-hash pair
`blockC`/`blockA`. -/
theorem block_merge_guard_comm_idem_witness :
    (blockA.merge blockB).latSamples "Sync" = (blockB.merge blockA).latSamples "Sync" ∧
    blockC.merge blockA = blockC ∧
    (blockA.merge blockA).latSampleSet "Sync" = blockA.latSampleSet "Sync" :=
  ⟨(block_merge_guard_comm_idem blockA blockB).2.1 rfl "Sync",
   (block_merge_guard_comm_idem blockC blockA).1 (by decide),
   (block_merge_guard_comm_idem blockA blockA).2.2 "Sync"⟩

/-! ## `Transaction` (`data_utils.py`) -/

/-- `data_utils.Transaction`.  Nullable timestamp entries are `Option ℚ`. -/
structure Transaction where
  hash : String
  received_timestamps : List ℚ
  by_block : Bool
  packed_timestamps : List (Option ℚ)
  ready_pool_timestamps : List (Option ℚ)
  deriving DecidableEq, Repr

/-- `Transaction.merge(tx)` modelled as returning the updated receiver:
received lists concatenate; for packed (and likewise ready-pool) timestamps,
if the argument's entry 0 is non-null then either it fills the receiver's
null entry 0 (`self.packed_timestamps[0] = tx.packed_timestamps[0]`) or, when
the receiver's entry 0 is already non-null, the argument's whole list is
appended (`list.extend`).  (Python indexes `[0]` directly; the parser always
builds singleton lists, modelled here by `headD none` / `set 0`.) -/
def Transaction.merge (self tx : Transaction) : Transaction :=
  let packed :=
    match tx.packed_timestamps.headD none with
    | none => self.packed_timestamps
    | some v =>
      match self.packed_timestamps.headD none with
      | none => self.packed_timestamps.set 0 (some v)
      | some _ => self.packed_timestamps ++ tx.packed_timestamps
  let ready :=
    match tx.ready_pool_timestamps.headD none with
    | none => self.ready_pool_timestamps
    | some v =>
      match self.ready_pool_timestamps.headD none with
      | none => self.ready_pool_timestamps.set 0 (some v)
      | some _ => self.ready_pool_timestamps ++ tx.ready_pool_timestamps
  { self with
    received_timestamps := self.received_timestamps ++ tx.received_timestamps
    packed_timestamps := packed
    ready_pool_timestamps := ready }

/-- The number of non-null entries of a nullable-timestamp list. -/
def nonNullCount (l : List (Option ℚ)) : ℕ :=
  (l.filter Option.isSome).length

/-- A transaction first seen without a packing observation
(`packed_timestamps = [None]`). -/
def txObsA : Transaction := ⟨"0xtt", [10], false, [none], [none]⟩

/-- A transaction (same hash as `txObsA`) carrying two packing observations,
as produced by merging two packed observations of the same transaction. -/
def txObsB : Transaction := ⟨"0xtt", [8], false, [some 7, some 8], [none]⟩

/-- C6, counterexample: merging `txObsB` (two non-null packed entries) into
`txObsA` (zero non-null packed entries) yields one non-null entry, not
`0 + 2`: the branch `self.packed_timestamps[0] = tx.packed_timestamps[0]`
keeps only the argument's first entry. -/
theorem transaction_merge_loses_packed :
    txObsA.hash = txObsB.hash ∧
    nonNullCount (txObsA.merge txObsB).packed_timestamps = 1 ∧
    nonNullCount txObsA.packed_timestamps + nonNullCount txObsB.packed_timestamps = 2 :=
  ⟨rfl, rfl, rfl⟩

/-- C6, amended: when the argument carries a *single* packed-timestamp entry
(as every freshly parsed observation does) and the receiver's packed list is
non-empty, merging preserves the total non-null packed count: no non-null
observation is lost and none is double-counted. -/
theorem transaction_merge_packed_count (t1 t2 : Transaction) (p : Option ℚ)
    (_hhash : t1.hash = t2.hash)
    (hne : t1.packed_timestamps ≠ [])
    (hp : t2.packed_timestamps = [p]) :
    nonNullCount (t1.merge t2).packed_timestamps
      = nonNullCount t1.packed_timestamps + nonNullCount t2.packed_timestamps := by
  obtain ⟨a, rest, hcons⟩ := List.exists_cons_of_ne_nil hne
  cases p with
  | none =>
    simp [Transaction.merge, hp, nonNullCount]
  | some v =>
    cases a with
    | none =>
      simp [Transaction.merge, hp, hcons, nonNullCount]
    | some w =>
      simp [Transaction.merge, hp, hcons, nonNullCount, List.filter_append]

/-- A fresh packed observation used to witness C6 (amended). -/
def txC1 : Transaction := ⟨"0xuu", [10], false, [some 1], [none]⟩

/-- A second fresh packed observation of the same transaction as `txC1`. -/
def txC2 : Transaction := ⟨"0xuu", [8], false, [some 7], [none]⟩

/-- Witness for C6 (amended) on the concrete pair `txC1`, `txC2`. -/
theorem transaction_merge_packed_count_witness :
    nonNullCount (txC1.merge txC2).packed_timestamps = 2 ∧
    nonNullCount txC1.packed_timestamps + nonNullCount txC2.packed_timestamps = 2 := by
  have h := transaction_merge_packed_count txC1 txC2 (some 7) rfl (by simp [txC1]) rfl
  exact ⟨h.trans rfl, rfl⟩

/-! ## `Transaction.add_or_replace` (`data_utils.py`) -/

/-- `Transaction.add_or_replace(txs, tx)` for one hash cell, modelled as the
updated stored transaction.  If the incoming `tx` has a strictly smaller
first received timestamp it replaces the stored one, first saving the stored
non-null packed/ready head entries and writing them into `tx`; after that,
`txs[tx.hash]` *is* `tx` (Python aliasing), so the trailing
`if tx.packed_timestamps[0] is not None` overrides re-read the values just
written, not the incoming observation's original ones. -/
def Transaction.add_or_replace (stored : Option Transaction) (tx : Transaction) : Transaction :=
  match stored with
  | none => tx
  | some st =>
    if tx.received_timestamps.headD 0 < st.received_timestamps.headD 0 then
      let packed_time := st.packed_timestamps.headD none
      let ready_time := st.ready_pool_timestamps.headD none
      let cur := { tx with
        packed_timestamps := tx.packed_timestamps.set 0 packed_time
        ready_pool_timestamps := tx.ready_pool_timestamps.set 0 ready_time }
      let cur2 :=
        match cur.packed_timestamps.headD none with
        | some v => { cur with packed_timestamps := cur.packed_timestamps.set 0 (some v) }
        | none => cur
      match cur2.ready_pool_timestamps.headD none with
      | some v => { cur2 with ready_pool_timestamps := cur2.ready_pool_timestamps.set 0 (some v) }
      | none => cur2
    else
      let cur :=
        match tx.packed_timestamps.headD none with
        | some v => { st with packed_timestamps := st.packed_timestamps.set 0 (some v) }
        | none => st
      match tx.ready_pool_timestamps.headD none with
      | some v => { cur with ready_pool_timestamps := cur.ready_pool_timestamps.set 0 (some v) }
      | none => cur

/-- One freshly parsed single observation of a transaction
(`Transaction.receive`): a received timestamp, the by-block flag, and
optional packed / ready-pool timestamps. -/
structure TxObs where
  r : ℚ
  bb : Bool
  p : Option ℚ
  q : Option ℚ
  deriving DecidableEq, Repr

/-- The `Transaction` object built from one parsed observation:
singleton lists. -/
def TxObs.fresh (hash : String) (o : TxObs) : Transaction :=
  ⟨hash, [o.r], o.bb, [o.p], [o.q]⟩

/-- The stored transaction after a sequence of
`Transaction.add_or_replace(txs, tx)` calls with freshly parsed observations
of one hash. -/
def runAddOrReplace (hash : String) (obs : List TxObs) : Option Transaction :=
  obs.foldl (fun acc o => some (Transaction.add_or_replace acc (TxObs.fresh hash o))) none

/-- Modelled from the spec's words of C10, for refinement comparison only:
the most recently supplied non-null packed timestamp of a sequence of
observations. -/
def specLatestNonNullPacked (obs : List TxObs) : Option ℚ :=
  (obs.filterMap TxObs.p).getLast?

/-- Reference state for the `add_or_replace` fold: the stored received
timestamp, by-block flag, and head packed / ready entries. -/
structure RefState where
  m : ℚ
  bb : Bool
  p0 : Option ℚ
  q0 : Option ℚ
  deriving DecidableEq, Repr

/-- One reference step: an observation with a strictly smaller received
timestamp wins the received slot but its packed/ready values are discarded
(the previously stored ones are kept); otherwise a non-null packed/ready
value overwrites the stored one. -/
def refStep (s : RefState) (o : TxObs) : RefState :=
  if o.r < s.m then { m := o.r, bb := o.bb, p0 := s.p0, q0 := s.q0 }
  else { s with
    p0 := match o.p with | some v => some v | none => s.p0
    q0 := match o.q with | some v => some v | none => s.q0 }

/-- The reference fold over a non-empty observation sequence. -/
def refRun (o : TxObs) (rest : List TxObs) : RefState :=
  rest.foldl refStep ⟨o.r, o.bb, o.p, o.q⟩

/-- One `add_or_replace` call on a stored singleton-list transaction agrees
with the reference step. -/
theorem add_or_replace_step (hash : String) (s : RefState) (o : TxObs) :
    Transaction.add_or_replace (some ⟨hash, [s.m], s.bb, [s.p0], [s.q0]⟩) (TxObs.fresh hash o)
      = ⟨hash, [(refStep s o).m], (refStep s o).bb,
         [(refStep s o).p0], [(refStep s o).q0]⟩ := by
  unfold Transaction.add_or_replace TxObs.fresh refStep
  by_cases h : o.r < s.m
  · simp only [List.headD_cons, if_pos h, List.set]
    cases s.p0 <;> cases s.q0 <;> rfl
  · simp only [List.headD_cons, if_neg h, List.set]
    cases o.p <;> cases o.q <;> rfl

/-- The `add_or_replace` fold from any singleton-list stored transaction
follows the reference fold. -/
theorem runAddOrReplace_loop (hash : String) (s : RefState) (rest : List TxObs) :
    rest.foldl (fun acc o => some (Transaction.add_or_replace acc (TxObs.fresh hash o)))
        (some ⟨hash, [s.m], s.bb, [s.p0], [s.q0]⟩)
      = some ⟨hash, [(rest.foldl refStep s).m], (rest.foldl refStep s).bb,
              [(rest.foldl refStep s).p0], [(rest.foldl refStep s).q0]⟩ := by
  induction rest generalizing s with
  | nil => rfl
  | cons o rest ih =>
    rw [List.foldl_cons, add_or_replace_step hash s o, List.foldl_cons]
    exact ih (refStep s o)

/-- The received slot of the reference fold is the running minimum. -/
theorem refFold_min (s : RefState) (rest : List TxObs) :
    (rest.foldl refStep s).m = (rest.map TxObs.r).foldl min s.m := by
  induction rest generalizing s with
  | nil => rfl
  | cons o rest ih =>
    rw [List.foldl_cons, List.map_cons, List.foldl_cons, ih (refStep s o)]
    have hm : (refStep s o).m = min s.m o.r := by
      unfold refStep
      split
      · next h => simp [min_def, (not_le.mpr h : ¬ s.m ≤ o.r)]
      · next h => simp [min_def, le_of_not_lt h]
    rw [hm]

/-- C10, counterexample: supplying `(received=10, packed=5)` and then
`(received=8, packed=7)` leaves `packed_timestamps[0] = 5`, not the most
recently supplied non-null value `7`: the second observation replaces the
stored transaction (smaller received timestamp), and the aliasing in
`add_or_replace` discards its own packed value in favour of the earlier `5`. -/
theorem add_or_replace_latest_packed_counterexample :
    (runAddOrReplace "0xcc" [⟨10, false, some 5, none⟩, ⟨8, false, some 7, none⟩]).map
        Transaction.packed_timestamps = some [some 5] ∧
    specLatestNonNullPacked [⟨10, false, some 5, none⟩, ⟨8, false, some 7, none⟩] = some 7 ∧
    (some (5:ℚ) : Option ℚ) ≠ some 7 :=
  ⟨rfl, rfl, by simp⟩

/-- C10, amended: over any sequence of freshly parsed single observations of
one hash, the stored transaction's `received_timestamps` is the singleton
running minimum of the received timestamps (the earliest observation wins),
while `packed_timestamps[0]` / `ready_pool_timestamps[0]` follow `refStep`:
a later non-null packed/ready value overwrites the stored one *only when the
later observation's received timestamp is not strictly smaller*; an
observation that triggers replacement has its packed/ready values discarded
and the previously stored ones are kept. -/
theorem add_or_replace_invariant (hash : String) (o : TxObs) (rest : List TxObs) :
    runAddOrReplace hash (o :: rest) =
      some ⟨hash, [(refRun o rest).m], (refRun o rest).bb,
            [(refRun o rest).p0], [(refRun o rest).q0]⟩ ∧
    (refRun o rest).m = (rest.map TxObs.r).foldl min o.r := by
  constructor
  · unfold runAddOrReplace refRun
    rw [List.foldl_cons]
    exact runAddOrReplace_loop hash ⟨o.r, o.bb, o.p, o.q⟩ rest
  · exact refFold_min ⟨o.r, o.bb, o.p, o.q⟩ rest

/-! ## `InMemoryLogAggregator` (`in_memory_aggregator.py`) -/

/-- The aggregator state used by `validate` and `generate_latency_stat`:
the block map (a dict from hash), the transaction map, and the list of
per-host sync/cons-gap `Statistics` (whose length is the host count). -/
structure InMemoryLogAggregator where
  blocks : List (String × Block)
  txs : List (String × Transaction)
  sync_cons_gap_stats : List Statistics

/-- `InMemoryLogAggregator.validate()`: with
`num_nodes = len(self.sync_cons_gap_stats)`, delete every block whose
`Sync`-type latency-sample count differs from `num_nodes` (the transaction
loop only counts and prints; it removes nothing). -/
def InMemoryLogAggregator.validate (a : InMemoryLogAggregator) : InMemoryLogAggregator :=
  let num_nodes := a.sync_cons_gap_stats.length
  { a with blocks :=
      a.blocks.filter (fun e => e.2.latency_count (.inl .Sync) == num_nodes) }

/-- C7: after `validate()`, a block entry is in the block map exactly when it
was there before and its `Sync`-type latency-sample count equals the host
count `N = len(sync_cons_gap_stats)`; in particular a block with fewer (or
more) than `N` Sync samples is dropped and one with exactly `N` remains. -/
theorem validate_keeps_iff (a : InMemoryLogAggregator) (h : String) (b : Block) :
    (h, b) ∈ a.validate.blocks ↔
      ((h, b) ∈ a.blocks ∧
        b.latency_count (.inl .Sync) = a.sync_cons_gap_stats.length) := by
  unfold InMemoryLogAggregator.validate
  simp [List.mem_filter]

/-! ## `generate_latency_stat` completeness guards (`in_memory_aggregator.py`) -/

/-- `int(0.9 * num_nodes)`: the pivot-event completeness floor of
`generate_latency_stat`. -/
def pivotThreshold (num_nodes : ℕ) : ℕ := ⌊(9/10 : ℚ) * (num_nodes : ℚ)⌋₊

/-- The guard of the default-latency-key loop of `generate_latency_stat`: a
per-block `Statistics` is built for key `t` unless the sample list is empty,
or `t` is a pivot-only event type with fewer than `int(0.9 * num_nodes)`
samples. -/
def buildsDefaultStat (num_nodes : ℕ) (b : Block) (t : LatKey) : Bool :=
  if (b.get_latencies t).isEmpty then false
  else if only_pivot_event t && ((b.get_latencies t).length < pivotThreshold num_nodes) then false
  else true

/-- The guard of the custom-stage loop of `generate_latency_stat`: a
per-block `Statistics` is built for a dynamically discovered stage with
sample list `latencies` unless the list is empty or shorter than
`int(0.9 * num_nodes)`. -/
def buildsCustomStat (num_nodes : ℕ) (latencies : List ℚ) : Bool :=
  if latencies.isEmpty then false
  else if latencies.length < pivotThreshold num_nodes then false
  else true

/-- Modelled from the spec's words of C8, for refinement comparison only:
"at least 90% of the hosts reported a sample". -/
def specAtLeast90 (num_nodes count : ℕ) : Prop :=
  (9/10 : ℚ) * (num_nodes : ℚ) ≤ (count : ℚ)

/-- A block carrying two `ComputeEpoch` samples (out of three hosts). -/
def blockPivotEx : Block :=
  ⟨"0xdd", "0xp", 100, 7, [], 3, 5, fun k => if k = "ComputeEpoch" then some [1, 2] else none⟩

/-- C8, counterexample: with 3 hosts, a block with only 2 `ComputeEpoch`
samples (66.7% of hosts, below 90%) still gets a per-block `Statistics`,
because the code's floor is `int(0.9 * 3) = 2`, not "at least 90%". -/
theorem pivot_threshold_counterexample :
    buildsDefaultStat 3 blockPivotEx (.inr .ComputeEpoch) = true ∧
    only_pivot_event (.inr .ComputeEpoch) = true ∧
    (blockPivotEx.get_latencies (.inr .ComputeEpoch)).length = 2 ∧
    ¬ specAtLeast90 3 2 := by
  have hthr : pivotThreshold 3 = 2 := by
    unfold pivotThreshold
    rw [show (9/10 : ℚ) * ((3:ℕ) : ℚ) = ((27 : ℕ) : ℚ) / ((10 : ℕ) : ℚ) by push_cast; ring]
    rw [Rat.natFloor_natCast_div_natCast]
  refine ⟨?_, rfl, rfl, ?_⟩
  · unfold buildsDefaultStat
    rw [hthr]
    rfl
  · unfold specAtLeast90
    norm_num

/-- C8, amended: for a pivot-only event type (value `ComputeEpoch` and
later) and likewise for every dynamically discovered custom stage, the
per-block `Statistics` is built exactly when the sample list is non-empty
and its length is at least `int(0.9 * num_nodes)` = `⌊9·N/10⌋` — a floor,
not a true "at least 90% of hosts" test. -/
theorem pivot_stat_built_iff (num_nodes : ℕ) (b : Block) (t : LatKey)
    (hp : only_pivot_event t = true) :
    (buildsDefaultStat num_nodes b t = true ↔
      (b.get_latencies t ≠ [] ∧ 9 * num_nodes / 10 ≤ (b.get_latencies t).length)) ∧
    (∀ latencies : List ℚ, buildsCustomStat num_nodes latencies = true ↔
      (latencies ≠ [] ∧ 9 * num_nodes / 10 ≤ latencies.length)) ∧
    pivotThreshold num_nodes = 9 * num_nodes / 10 := by
  have hthr : pivotThreshold num_nodes = 9 * num_nodes / 10 := by
    unfold pivotThreshold
    rw [show (9/10 : ℚ) * (num_nodes : ℚ) = ((9 * num_nodes : ℕ) : ℚ) / ((10 : ℕ) : ℚ) by
      push_cast; ring]
    rw [Rat.natFloor_natCast_div_natCast]
  refine ⟨?_, fun latencies => ?_, hthr⟩
  · unfold buildsDefaultStat
    rw [hp, hthr]
    split_ifs with h1 h2 <;>
      simp_all [List.isEmpty_iff, not_lt]
  · unfold buildsCustomStat
    rw [hthr]
    split_ifs with h1 h2 <;>
      simp_all [List.isEmpty_iff, not_lt]

/-- Witness for C8 (amended) with 3 hosts and a 2-sample list. -/
theorem pivot_stat_built_iff_witness :
    buildsCustomStat 3 [(1:ℚ), 2] = true ∧ pivotThreshold 3 = 2 := by
  have h := pivot_stat_built_iff 3 blockPivotEx (.inr .ComputeEpoch) rfl
  refine ⟨(h.2.1 [(1:ℚ), 2]).mpr ⟨by simp, by norm_num⟩, by rw [h.2.2]⟩

/-! ## `SqliteStorage` (`stat_latency/storage.py`)

The store's queue discipline is modelled as a transition system: callers
enqueue logical write operations (`Queue.put` increments the queue's
`unfinished_tasks` counter), the single background writer thread dequeues
them into a local `batch` list — calling `task_done()` *at that point* — and
applies a batch to the database only when it reaches `batch_size` ops, or
when a 0.5 s `get` timeout fires on an empty queue.  `flush()` is
`Queue.join()`, which returns exactly when `unfinished_tasks` is zero.  The
claim concerns `add_block_latency` / `get_block_latencies`; the other op
kinds go through the identical queue path. -/

/-- A queued logical write operation (`("block_latency", args)` tuples). -/
inductive DbOp where
  | blockLatency (block_hash : String) (lat_type : String) (value : ℚ)
  deriving DecidableEq, Repr

/-- The queue-visible state of a `SqliteStorage`: the op queue (a `none`
entry models the stop sentinel), the `unfinished_tasks` counter of the
queue, the writer's local `batch`, the applied `block_latency` rows, and the
configured `batch_size`. -/
structure SqliteStorage where
  op_queue : List (Option DbOp)
  unfinished_tasks : ℕ
  batch : List DbOp
  block_latency_rows : List (String × String × ℚ)
  batch_size : ℕ

/-- A fresh store: empty queue, empty batch, empty table. -/
def SqliteStorage.mkStore (batch_size : ℕ) : SqliteStorage :=
  ⟨[], 0, [], [], batch_size⟩

/-- `_process_batch(ops)`: apply every op in the batch to the database and
commit — each `block_latency` op inserts one row. -/
def process_batch (rows : List (String × String × ℚ)) (ops : List DbOp) :
    List (String × String × ℚ) :=
  rows ++ ops.map (fun op => match op with | .blockLatency h t v => (h, t, v))

/-- `add_block_latency(h, t, v)`: `Queue.put` of the op — append to the
queue and increment `unfinished_tasks`. -/
def SqliteStorage.add_block_latency (s : SqliteStorage) (h t : String) (v : ℚ) :
    SqliteStorage :=
  { s with op_queue := s.op_queue ++ [some (.blockLatency h t v)]
           unfinished_tasks := s.unfinished_tasks + 1 }

/-- One scheduling step of the background `_writer_loop`. -/
inductive WriterStep : SqliteStorage → SqliteStorage → Prop where
  /-- The writer `get`s one op, appends it to its local batch, calls
  `task_done()` (decrementing `unfinished_tasks` *before* the op is
  applied), and processes the batch only once it holds `batch_size` ops. -/
  | takeOp (s : SqliteStorage) (op : DbOp) (rest : List (Option DbOp))
      (hq : s.op_queue = some op :: rest) :
      WriterStep s
        (if s.batch_size ≤ (s.batch ++ [op]).length then
          { s with op_queue := rest
                   unfinished_tasks := s.unfinished_tasks - 1
                   batch := []
                   block_latency_rows :=
                     process_batch s.block_latency_rows (s.batch ++ [op]) }
        else
          { s with op_queue := rest
                   unfinished_tasks := s.unfinished_tasks - 1
                   batch := s.batch ++ [op] })
  /-- The 0.5 s `get` timeout fires on an empty queue and the pending batch
  is processed. -/
  | timeout (s : SqliteStorage) (hq : s.op_queue = []) :
      WriterStep s
        { s with batch := []
                 block_latency_rows := process_batch s.block_latency_rows s.batch }

/-- `flush()` is `Queue.join()`: it returns exactly when every `put` has
been matched by a `task_done()` call. -/
def flushReturns (s : SqliteStorage) : Prop := s.unfinished_tasks = 0

/-- `get_block_latencies(h)[t]`: the applied latency values for block `h`
and type `t` (the read the caller performs after its internal `flush()`). -/
def SqliteStorage.get_block_latencies (s : SqliteStorage) (h t : String) : List ℚ :=
  (s.block_latency_rows.filter (fun r => r.1 == h && r.2.1 == t)).map (fun r => r.2.2)

/-- C2, refuted — the code contradicts its own docstrings ("Block until
queued write ops are processed"; "Readers call `flush()` to ensure
visibility of recent writes"): with the default `batch_size = 100`, after
`add_block_latency(h, "Sync", 1.23)` the writer can legally dequeue the op
into its local batch and call `task_done()` before applying it; at that
point `flush()` returns (the queue's join counter is zero) while
`get_block_latencies(h)["Sync"]` is still empty — the enqueued write is not
visible to a read issued after `flush()` returns. -/
theorem flush_does_not_wait_for_apply :
    ∃ s' : SqliteStorage,
      WriterStep ((SqliteStorage.mkStore 100).add_block_latency "0xaa" "Sync" (123/100)) s' ∧
      flushReturns s' ∧
      s'.get_block_latencies "0xaa" "Sync" = [] := by
  refine ⟨_, WriterStep.takeOp _ (.blockLatency "0xaa" "Sync" (123/100)) [] rfl, ?_, ?_⟩
  · rw [if_neg (by simp [SqliteStorage.mkStore, SqliteStorage.add_block_latency])]
    rfl
  · rw [if_neg (by simp [SqliteStorage.mkStore, SqliteStorage.add_block_latency])]
    rfl

end MassiveTest

